import Mathlib

/-!
Verification of the AgentUp plugin CLI.

Part 1 models the scope-editing core of the `manage` command family
(document model, edit parsing, scope mutation engine, change reporter,
conditional persistence).  The implementation module `plugin_manage.py`
is not part of the provided sources (only its test suite and importers
are), so these definitions are modelled from the specification text and
checked for consistency against the behaviour the test suite pins down.

Part 2 embeds the code that is present in the sources:
`cli_utils.safe_extract` / `_is_within_directory` and the
`agentup-cfg` output branch of `plugin_info.list_plugins`.
-/

namespace AgentUp

/-! Data model of the configuration document. -/

/-- Modelled from the spec: a capability entry is a mapping that may
contain a `required_scopes` key holding an ordered sequence of scope
strings; the remaining keys of the mapping are kept abstractly as an
association list.  The empty mapping is `none` scopes and no extra
entries.  (The implementation module `plugin_manage.py` is missing from
the sources.) -/
structure Capability where
  required_scopes : Option (List String)
  extra : List (String × String)
deriving DecidableEq, Repr

/-- Modelled from the spec: a plugin entry has a `capabilities` mapping
keyed by capability identifier, plus unrelated sibling keys. -/
structure PluginEntry where
  capabilities : List (String × Capability)
  extra : List (String × String)
deriving DecidableEq, Repr

/-- Modelled from the spec: the root document has a `plugins` mapping
keyed by plugin identifier, plus unrelated top-level keys which the
mutation engine never touches. -/
structure ConfigDocument where
  plugins : List (String × PluginEntry)
  extra : List (String × String)
deriving DecidableEq, Repr

/-- Update the value stored at key `k` in an association list, leaving
every other binding (and the order of bindings) unchanged. -/
def updateAssoc {β : Type} (k : String) (v : β) : List (String × β) → List (String × β)
  | [] => []
  | (k2, v2) :: rest => if k2 = k then (k2, v) :: rest else (k2, v2) :: updateAssoc k v rest

/-! Edit strings and their parsing. -/

/-- Modelled from the spec: the two operations of a scope edit. -/
inductive ScopeOp
  | add
  | remove
deriving DecidableEq, Repr

/-- Modelled from the spec: a raw edit as supplied on the command line,
an unparsed `capability_id::scope_string` plus the requested operation. -/
structure RawEdit where
  raw : String
  op : ScopeOp
deriving DecidableEq, Repr

/-- Split a character list on occurrences of the two-character
separator `::`, scanning left to right. -/
def splitSep : List Char → List (List Char)
  | [] => [[]]
  | ':' :: ':' :: rest => [] :: splitSep rest
  | c :: rest =>
    match splitSep rest with
    | [] => [[c]]
    | g :: gs => (c :: g) :: gs

/-- Modelled from the spec: parsing a compact edit string of the form
`capability_id::scope_string`; exactly one `::` separator is required
and both sides must be non-empty, otherwise the parse fails. -/
def parseEdit (raw : String) : Option (String × String) :=
  match splitSep raw.data with
  | [a, b] => if a = [] ∨ b = [] then none else some (String.mk a, String.mk b)
  | _ => none

/-! The scope mutation engine. -/

/-- Modelled from the spec: the per-edit outcomes recorded by the
change reporter. -/
inductive EditOutcome
  | added (cap scope : String)
  | removed (cap scope : String)
  | alreadyExists (cap scope : String)
  | scopeNotFound (cap scope : String)
  | invalidFormat (raw : String)
  | capabilityNotFound (cap : String)
deriving DecidableEq, Repr

/-- The scope list of a capability, reading an absent `required_scopes`
key as the empty list. -/
def getScopes (c : Capability) : List String := c.required_scopes.getD []

/-- Modelled from the spec: ADD records an already-exists no-op when the
scope is present, and otherwise appends the scope string at the end of
`required_scopes`. -/
def applyAdd (c : Capability) (cap scope : String) : Capability × EditOutcome :=
  let scopes := getScopes c
  if scope ∈ scopes then (c, EditOutcome.alreadyExists cap scope)
  else ({ c with required_scopes := some (scopes ++ [scope]) }, EditOutcome.added cap scope)

/-- Modelled from the spec: REMOVE records a not-found warning when the
scope is absent; otherwise it removes the scope, and when the scope list
becomes empty the `required_scopes` key is deleted from the capability
mapping entirely. -/
def applyRemove (c : Capability) (cap scope : String) : Capability × EditOutcome :=
  let scopes := getScopes c
  if scope ∈ scopes then
    let remaining := scopes.erase scope
    ({ c with required_scopes := if remaining = [] then none else some remaining },
      EditOutcome.removed cap scope)
  else (c, EditOutcome.scopeNotFound cap scope)

/-- Modelled from the spec: one edit applied to a plugin entry.  A parse
failure or an unknown capability key is recorded as a non-fatal outcome
and leaves the entry unchanged; otherwise the resolved capability is
mutated in place. -/
def applyEdit (p : PluginEntry) (e : RawEdit) : PluginEntry × EditOutcome :=
  match parseEdit e.raw with
  | none => (p, EditOutcome.invalidFormat e.raw)
  | some (cap, scope) =>
    match p.capabilities.lookup cap with
    | none => (p, EditOutcome.capabilityNotFound cap)
    | some c =>
      let r := match e.op with
        | ScopeOp.add => applyAdd c cap scope
        | ScopeOp.remove => applyRemove c cap scope
      ({ p with capabilities := updateAssoc cap r.1 p.capabilities }, r.2)

/-- Modelled from the spec: the edits of one invocation applied in
order, collecting the per-edit outcomes for the reporter. -/
def applyEdits (p : PluginEntry) : List RawEdit → PluginEntry × List EditOutcome
  | [] => (p, [])
  | e :: es =>
    let r := applyEdit p e
    let rest := applyEdits r.1 es
    (rest.1, r.2 :: rest.2)

/-! The manage command. -/

/-- Modelled from the spec: one invocation of `manage <plugin_id>` with
repeatable add/remove edit strings and the dry-run flag. -/
structure Invocation where
  plugin_id : String
  adds : List String
  removes : List String
  dry_run : Bool
deriving DecidableEq, Repr

/-- The edit sequence of an invocation: the add strings in the order
given, then the remove strings in the order given. -/
def editsOf (inv : Invocation) : List RawEdit :=
  inv.adds.map (fun r => { raw := r, op := ScopeOp.add }) ++
    inv.removes.map (fun r => { raw := r, op := ScopeOp.remove })

/-- Modelled from the spec: the reporter line for one edit outcome. -/
def renderOutcome : EditOutcome → String
  | EditOutcome.added cap scope => "Added scope " ++ scope ++ " to capability " ++ cap
  | EditOutcome.removed cap scope => "Removed scope " ++ scope ++ " from capability " ++ cap
  | EditOutcome.alreadyExists cap scope =>
    "Scope " ++ scope ++ " already exists for capability " ++ cap
  | EditOutcome.scopeNotFound cap scope =>
    "Scope " ++ scope ++ " not found for capability " ++ cap
  | EditOutcome.invalidFormat raw => "Invalid scope format: " ++ raw
  | EditOutcome.capabilityNotFound cap => "Capability " ++ cap ++ " not found"

/-- The fatal message used both for an unknown plugin and for a missing
configuration resource. -/
def pluginNotFoundMsg (pid : String) : String := "Plugin " ++ pid ++ " not found"

/-- Outcome of a whole `manage` invocation: process exit code, the
structured report, the printed message lines, and the resulting state of
the on-disk configuration resource. -/
structure CmdResult where
  exitCode : Nat
  report : List EditOutcome
  messages : List String
  disk : Option ConfigDocument
deriving DecidableEq, Repr

/-- Modelled from the spec: loading the configuration resource; a
missing resource is read as a document with no plugins, so the failure
surfaces through the plugin-existence check. -/
def loadDocument : Option ConfigDocument → ConfigDocument
  | none => { plugins := [], extra := [] }
  | some d => d

/-- Modelled from the spec: the full `manage` command.  An unknown
plugin aborts with a non-zero exit; zero requested edits report
nothing to do; otherwise the engine and reporter run, and the document
is persisted only when not in dry-run mode and a net change occurred. -/
def manage (disk : Option ConfigDocument) (inv : Invocation) : CmdResult :=
  let doc := loadDocument disk
  match doc.plugins.lookup inv.plugin_id with
  | none =>
    { exitCode := 1, report := [], messages := [pluginNotFoundMsg inv.plugin_id], disk := disk }
  | some p =>
    if inv.adds = [] ∧ inv.removes = [] then
      { exitCode := 0, report := [], messages := ["Nothing to do"], disk := disk }
    else
      let r := applyEdits p (editsOf inv)
      let doc2 : ConfigDocument := { doc with plugins := updateAssoc inv.plugin_id r.1 doc.plugins }
      { exitCode := 0
        report := r.2
        messages := (if inv.dry_run then ["DRY RUN"] else []) ++ r.2.map renderOutcome
        disk := if inv.dry_run then disk else if doc2 = doc then disk else some doc2 }

/-- Substring containment, used to state that a message mentions an
identifier. -/
def containsSub (s sub : String) : Prop := ∃ pre post, s = pre ++ (sub ++ post)

/-! Sample data mirroring the minimal configuration used by the test
suite: one plugin with one capability holding two scopes. -/

/-- The `search_internet` capability of the minimal test document. -/
def sampleCap : Capability := { required_scopes := some ["api:read", "api:write"], extra := [] }

/-- The `brave_search` plugin entry of the minimal test document. -/
def sampleEntry : PluginEntry := { capabilities := [("search_internet", sampleCap)], extra := [] }

/-- The minimal test document. -/
def sampleDoc : ConfigDocument :=
  { plugins := [("brave_search", sampleEntry)]
    extra := [("apiVersion", "v1"), ("name", "test")] }

/-! Helper lemmas about lookup and the engine. -/

/-- Lookup on a cons cell, stated with a propositional if. -/
theorem lookup_cons {β : Type} (k : String) (v : β) (tl : List (String × β)) (c : String) :
    List.lookup c ((k, v) :: tl) = if c = k then some v else List.lookup c tl := by
  by_cases h : c = k
  · subst h; simp [List.lookup]
  · have hb : (c == k) = false := beq_eq_false_iff_ne.mpr h
    simp [List.lookup, hb, h]

/-- Unfolding equation of updateAssoc at a matching head key. -/
theorem updateAssoc_cons_eq {β : Type} (k : String) (v v2 : β) (tl : List (String × β)) :
    updateAssoc k v ((k, v2) :: tl) = (k, v) :: tl := by
  simp [updateAssoc]

/-- Unfolding equation of updateAssoc at a non-matching head key. -/
theorem updateAssoc_cons_ne {β : Type} (k k2 : String) (v v2 : β) (tl : List (String × β))
    (h : k2 ≠ k) : updateAssoc k v ((k2, v2) :: tl) = (k2, v2) :: updateAssoc k v tl := by
  simp [updateAssoc, h]

/-- Updating an association list at one key does not create or delete
bindings: a key absent before the update is absent after it, and
conversely. -/
theorem lookup_updateAssoc_none {β : Type} (k : String) (v : β) (l : List (String × β))
    (c : String) : (updateAssoc k v l).lookup c = none ↔ l.lookup c = none := by
  induction l with
  | nil => simp [updateAssoc]
  | cons hd tl ih =>
    obtain ⟨k2, v2⟩ := hd
    by_cases hk : k2 = k
    · subst hk
      rw [updateAssoc_cons_eq, lookup_cons, lookup_cons]
      by_cases hc : c = k2 <;> simp [hc]
    · rw [updateAssoc_cons_ne _ _ _ _ _ hk, lookup_cons, lookup_cons]
      by_cases hc : c = k2 <;> simp [hc, ih]

/-- One edit never invents a capability key: a capability absent from
the plugin entry stays absent after the edit. -/
theorem applyEdit_lookup_none (p : PluginEntry) (e : RawEdit) (cap : String)
    (h : p.capabilities.lookup cap = none) :
    (applyEdit p e).1.capabilities.lookup cap = none := by
  unfold applyEdit
  split
  · exact h
  · split
    · exact h
    · exact (lookup_updateAssoc_none _ _ _ _).mpr h

/-- A capability key absent from the plugin entry stays absent through
any sequence of edits. -/
theorem applyEdits_lookup_none (p : PluginEntry) (es : List RawEdit) (cap : String)
    (h : p.capabilities.lookup cap = none) :
    (applyEdits p es).1.capabilities.lookup cap = none := by
  induction es generalizing p with
  | nil => simpa [applyEdits] using h
  | cons e es ih => simpa [applyEdits] using ih _ (applyEdit_lookup_none p e cap h)

/-- Running the engine over a concatenation of edit lists runs it over
the first list and then the second, concatenating the reports. -/
theorem applyEdits_append (p : PluginEntry) (xs ys : List RawEdit) :
    applyEdits p (xs ++ ys) =
      ((applyEdits (applyEdits p xs).1 ys).1,
        (applyEdits p xs).2 ++ (applyEdits (applyEdits p xs).1 ys).2) := by
  induction xs generalizing p with
  | nil => simp [applyEdits]
  | cons e xs ih => simp [applyEdits, ih]

/-- Unfolding equation of applyAdd when the scope is present. -/
theorem applyAdd_mem (c : Capability) (cap s : String) (h : s ∈ getScopes c) :
    applyAdd c cap s = (c, EditOutcome.alreadyExists cap s) := by
  simp only [applyAdd]
  rw [if_pos h]

/-- Unfolding equation of applyAdd when the scope is absent. -/
theorem applyAdd_not_mem (c : Capability) (cap s : String) (h : s ∉ getScopes c) :
    applyAdd c cap s
      = ({ c with required_scopes := some (getScopes c ++ [s]) }, EditOutcome.added cap s) := by
  simp only [applyAdd]
  rw [if_neg h]

/-- Unfolding equation of applyRemove when the scope is present. -/
theorem applyRemove_mem (c : Capability) (cap s : String) (h : s ∈ getScopes c) :
    applyRemove c cap s
      = ({ c with required_scopes :=
            if (getScopes c).erase s = [] then none else some ((getScopes c).erase s) },
          EditOutcome.removed cap s) := by
  simp only [applyRemove]
  rw [if_pos h]

/-- Unfolding equation of applyRemove when the scope is absent. -/
theorem applyRemove_not_mem (c : Capability) (cap s : String) (h : s ∉ getScopes c) :
    applyRemove c cap s = (c, EditOutcome.scopeNotFound cap s) := by
  simp only [applyRemove]
  rw [if_neg h]

/-! Claim theorems. -/

/-- C1: for every configuration document state and every sequence of
add/remove edits, invoking manage with the dry-run flag leaves the
on-disk configuration resource identical to its content before the
invocation, while the mutation engine and reporter compute the same
report as in non-dry-run mode; the persistence step is never
performed. -/
theorem c1_dry_run_purity (disk : Option ConfigDocument) (pid : String)
    (adds removes : List String) :
    (manage disk { plugin_id := pid, adds := adds, removes := removes, dry_run := true }).disk
      = disk ∧
    (manage disk { plugin_id := pid, adds := adds, removes := removes, dry_run := true }).report
      = (manage disk
          { plugin_id := pid, adds := adds, removes := removes, dry_run := false }).report := by
  by_cases he : adds = [] ∧ removes = [] <;>
    cases h : (loadDocument disk).plugins.lookup pid <;>
      simp [manage, h, he, editsOf]

/-- C2: invoking manage on a plugin identifier absent from the
document aborts as a fatal error with a non-zero exit code and a
message containing the plugin identifier, and no edit is applied to
the on-disk resource. -/
theorem c2_unknown_plugin_fatal (disk : Option ConfigDocument) (pid : String)
    (adds removes : List String) (dry : Bool)
    (h : (loadDocument disk).plugins.lookup pid = none) :
    (manage disk { plugin_id := pid, adds := adds, removes := removes, dry_run := dry }).exitCode
      ≠ 0 ∧
    (manage disk { plugin_id := pid, adds := adds, removes := removes, dry_run := dry }).disk
      = disk ∧
    ∃ m ∈ (manage disk
        { plugin_id := pid, adds := adds, removes := removes, dry_run := dry }).messages,
      containsSub m pid := by
  refine ⟨by simp [manage, h], by simp [manage, h], pluginNotFoundMsg pid, by simp [manage, h],
    "Plugin ", " not found", rfl⟩

/-- Witness for C2 at the minimal test document and the plugin
identifier used by the test suite. -/
theorem c2_unknown_plugin_fatal_witness :
    (manage (some sampleDoc)
      { plugin_id := "not_a_plugin", adds := ["search_internet::search:web:query"],
        removes := [], dry_run := false }).exitCode ≠ 0 ∧
    (manage (some sampleDoc)
      { plugin_id := "not_a_plugin", adds := ["search_internet::search:web:query"],
        removes := [], dry_run := false }).disk = some sampleDoc ∧
    ∃ m ∈ (manage (some sampleDoc)
        { plugin_id := "not_a_plugin", adds := ["search_internet::search:web:query"],
          removes := [], dry_run := false }).messages,
      containsSub m "not_a_plugin" :=
  c2_unknown_plugin_fatal (some sampleDoc) "not_a_plugin" ["search_internet::search:web:query"]
    [] false (by decide)

/-- C3: removing the scope whose deletion empties `required_scopes`
deletes the key from the capability mapping entirely, so a capability
with no other keys persists as the empty mapping; removing an absent
scope records a non-fatal not-found warning and leaves the capability
unchanged. -/
theorem c3_remove_collapse (c : Capability) (cap s : String) :
    (s ∈ getScopes c → (getScopes c).erase s = [] →
      applyRemove c cap s
        = ({ required_scopes := none, extra := c.extra }, EditOutcome.removed cap s)) ∧
    (s ∈ getScopes c → (getScopes c).erase s = [] → c.extra = [] →
      (applyRemove c cap s).1 = { required_scopes := none, extra := [] }) ∧
    (s ∉ getScopes c → applyRemove c cap s = (c, EditOutcome.scopeNotFound cap s)) := by
  refine ⟨?_, ?_, ?_⟩
  · intro hmem herase
    rw [applyRemove_mem c cap s hmem, if_pos herase]
  · intro hmem herase hex
    rw [applyRemove_mem c cap s hmem, if_pos herase]
    simp [hex]
  · intro hmem
    exact applyRemove_not_mem c cap s hmem

/-- Witness for C3: removing the only scope collapses the capability
to the empty mapping, and removing from a capability with no scopes
records a not-found warning. -/
theorem c3_remove_collapse_witness :
    applyRemove { required_scopes := some ["only:one"], extra := [] } "search_internet" "only:one"
      = ({ required_scopes := none, extra := [] },
          EditOutcome.removed "search_internet" "only:one") ∧
    applyRemove { required_scopes := none, extra := [] } "search_internet" "no:match"
      = ({ required_scopes := none, extra := [] },
          EditOutcome.scopeNotFound "search_internet" "no:match") :=
  ⟨(c3_remove_collapse { required_scopes := some ["only:one"], extra := [] }
      "search_internet" "only:one").1 (by decide) (by decide),
    (c3_remove_collapse { required_scopes := none, extra := [] }
      "search_internet" "no:match").2.2 (by decide)⟩

/-- C4: ADD is idempotent: applying the same ADD edit a second time
reports already-exists and leaves the capability unchanged; moreover
a duplicate-free `required_scopes` stays duplicate-free under both
mutations, so it never contains duplicate entries after any
mutation. -/
theorem c4_add_idempotent (c : Capability) (cap s : String) :
    applyAdd (applyAdd c cap s).1 cap s
      = ((applyAdd c cap s).1, EditOutcome.alreadyExists cap s) ∧
    ((getScopes c).Nodup →
      (getScopes (applyAdd c cap s).1).Nodup ∧ (getScopes (applyRemove c cap s).1).Nodup) := by
  constructor
  · by_cases hmem : s ∈ getScopes c
    · have h1 := applyAdd_mem c cap s hmem
      rw [h1]
      simpa using h1
    · rw [applyAdd_not_mem c cap s hmem]
      refine applyAdd_mem _ _ _ ?_
      simp [getScopes]
  · intro hnd
    constructor
    · by_cases hmem : s ∈ getScopes c
      · rw [applyAdd_mem c cap s hmem]
        exact hnd
      · rw [applyAdd_not_mem c cap s hmem]
        have : (getScopes c ++ [s]).Nodup := by
          simp [List.nodup_append]
          exact ⟨hnd, hmem⟩
        simpa [getScopes] using this
    · by_cases hmem : s ∈ getScopes c
      · rw [applyRemove_mem c cap s hmem]
        by_cases herase : (getScopes c).erase s = []
        · rw [if_pos herase]
          simp [getScopes]
        · rw [if_neg herase]
          simpa [getScopes] using hnd.erase s
      · rw [applyRemove_not_mem c cap s hmem]
        exact hnd

/-- Witness for C4 at the capability of the minimal test document. -/
theorem c4_add_idempotent_witness :
    applyAdd (applyAdd sampleCap "search_internet" "search:web:query").1 "search_internet"
        "search:web:query"
      = ((applyAdd sampleCap "search_internet" "search:web:query").1,
          EditOutcome.alreadyExists "search_internet" "search:web:query") ∧
    (getScopes (applyAdd sampleCap "search_internet" "search:web:query").1).Nodup ∧
    (getScopes (applyRemove sampleCap "search_internet" "search:web:query").1).Nodup :=
  ⟨(c4_add_idempotent sampleCap "search_internet" "search:web:query").1,
    (c4_add_idempotent sampleCap "search_internet" "search:web:query").2 (by decide)⟩

/-- C5: an edit whose capability identifier is absent under a known
plugin records a non-fatal capability-not-found warning containing the
capability identifier, skips only that edit, leaves the exit code 0,
and all remaining edits of the same invocation are still applied. -/
theorem c5_unknown_capability_skipped (p : PluginEntry) (xs ys : List RawEdit) (e : RawEdit)
    (cap scope : String) (hp : parseEdit e.raw = some (cap, scope))
    (hc : p.capabilities.lookup cap = none) :
    applyEdit p e = (p, EditOutcome.capabilityNotFound cap) ∧
    (applyEdits p (xs ++ e :: ys)).1 = (applyEdits p (xs ++ ys)).1 ∧
    (applyEdits p (xs ++ e :: ys)).2
      = (applyEdits p xs).2
          ++ EditOutcome.capabilityNotFound cap :: (applyEdits (applyEdits p xs).1 ys).2 ∧
    containsSub (renderOutcome (EditOutcome.capabilityNotFound cap)) cap ∧
    ∀ (disk : Option ConfigDocument) (inv : Invocation) (q : PluginEntry),
      (loadDocument disk).plugins.lookup inv.plugin_id = some q →
      (manage disk inv).exitCode = 0 := by
  have hwarn : ∀ q : PluginEntry, q.capabilities.lookup cap = none →
      applyEdit q e = (q, EditOutcome.capabilityNotFound cap) := by
    intro q hq
    simp [applyEdit, hp, hq]
  have hmid : (applyEdits p xs).1.capabilities.lookup cap = none :=
    applyEdits_lookup_none p xs cap hc
  refine ⟨hwarn p hc, ?_, ?_, ⟨"Capability ", " not found", rfl⟩, ?_⟩
  · rw [applyEdits_append p xs (e :: ys), applyEdits_append p xs ys]
    simp [applyEdits, hwarn _ hmid]
  · rw [applyEdits_append p xs (e :: ys)]
    simp [applyEdits, hwarn _ hmid]
  · intro disk inv q hq
    by_cases he : inv.adds = [] ∧ inv.removes = [] <;> simp [manage, hq, he]

/-- Witness for C5: the unknown capability `no_cap` of the minimal
test document, followed by a further edit that is still applied. -/
theorem c5_unknown_capability_skipped_witness :
    applyEdit sampleEntry { raw := "no_cap::x:y", op := ScopeOp.add }
      = (sampleEntry, EditOutcome.capabilityNotFound "no_cap") ∧
    (applyEdits sampleEntry
        ({ raw := "no_cap::x:y", op := ScopeOp.add }
          :: [{ raw := "search_internet::s:one", op := ScopeOp.add }])).1
      = (applyEdits sampleEntry [{ raw := "search_internet::s:one", op := ScopeOp.add }]).1 :=
  ⟨(c5_unknown_capability_skipped sampleEntry []
      [{ raw := "search_internet::s:one", op := ScopeOp.add }]
      { raw := "no_cap::x:y", op := ScopeOp.add } "no_cap" "x:y" (by decide) (by decide)).1,
    (c5_unknown_capability_skipped sampleEntry []
      [{ raw := "search_internet::s:one", op := ScopeOp.add }]
      { raw := "no_cap::x:y", op := ScopeOp.add } "no_cap" "x:y" (by decide) (by decide)).2.1⟩

/-- The scopes resulting from a sequence of ADD edits on one
capability, applied in the order given. -/
def addAll (c : Capability) (cap : String) (scopes : List String) : Capability :=
  scopes.foldl (fun acc s => (applyAdd acc cap s).1) c

/-- C6: a sequence of ADD edits of pairwise distinct new scopes
appends each scope at the end of `required_scopes` in the order the
edits were given, preserving the previously present scopes and the
rest of the capability entry. -/
theorem c6_add_order_preserved (c : Capability) (cap : String) (L : List String)
    (hnd : L.Nodup) (hfresh : ∀ s ∈ L, s ∉ getScopes c) :
    getScopes (addAll c cap L) = getScopes c ++ L ∧ (addAll c cap L).extra = c.extra := by
  induction L generalizing c with
  | nil => simp [addAll]
  | cons s L ih =>
    have hs : s ∉ getScopes c := hfresh s (by simp)
    have hstep := applyAdd_not_mem c cap s hs
    have hscopes : getScopes (applyAdd c cap s).1 = getScopes c ++ [s] := by
      rw [hstep]
      simp [getScopes]
    have hextra : (applyAdd c cap s).1.extra = c.extra := by
      rw [hstep]
    have hnd2 : L.Nodup := (List.nodup_cons.mp hnd).2
    have hsne : s ∉ L := (List.nodup_cons.mp hnd).1
    have hfresh2 : ∀ t ∈ L, t ∉ getScopes (applyAdd c cap s).1 := by
      intro t ht hmem
      rcases List.mem_append.mp (hscopes ▸ hmem) with h | h
      · exact hfresh t (List.mem_cons_of_mem _ ht) h
      · exact hsne (List.mem_singleton.mp h ▸ ht)
    have hrest := ih (applyAdd c cap s).1 hnd2 hfresh2
    have hfold : addAll c cap (s :: L) = addAll (applyAdd c cap s).1 cap L := by
      simp [addAll]
    constructor
    · rw [hfold, hrest.1, hscopes, List.append_assoc, List.singleton_append]
    · rw [hfold, hrest.2, hextra]

/-- Witness for C6: adding `s:one` then `s:two` to the capability of
the minimal test document appends them in that order. -/
theorem c6_add_order_preserved_witness :
    getScopes (addAll sampleCap "search_internet" ["s:one", "s:two"])
      = getScopes sampleCap ++ ["s:one", "s:two"] ∧
    (addAll sampleCap "search_internet" ["s:one", "s:two"]).extra = sampleCap.extra :=
  c6_add_order_preserved sampleCap "search_internet" ["s:one", "s:two"] (by decide) (by decide)

/-- C7: an edit string that is not of the form of a capability
identifier and a scope string joined by exactly one `::` separator
with both sides non-empty fails to parse, is recorded as an
invalid-format outcome whose message mentions Invalid scope format,
leaves the plugin entry unchanged, and the other edits of the same
invocation are still processed. -/
theorem c7_invalid_format (raw : String) (op : ScopeOp) (p : PluginEntry) (ys : List RawEdit)
    (h : ¬ ∃ a b, splitSep raw.data = [a, b] ∧ a ≠ [] ∧ b ≠ []) :
    parseEdit raw = none ∧
    applyEdit p { raw := raw, op := op } = (p, EditOutcome.invalidFormat raw) ∧
    applyEdits p ({ raw := raw, op := op } :: ys)
      = ((applyEdits p ys).1, EditOutcome.invalidFormat raw :: (applyEdits p ys).2) ∧
    containsSub (renderOutcome (EditOutcome.invalidFormat raw)) "Invalid scope format" := by
  have hpe : parseEdit raw = none := by
    unfold parseEdit
    cases hsp : splitSep raw.data with
    | nil => rfl
    | cons a t =>
      cases t with
      | nil => rfl
      | cons b t2 =>
        cases t2 with
        | nil =>
          by_cases hab : a = [] ∨ b = []
          · simp [hab]
          · push_neg at hab
            exact absurd ⟨a, b, hsp, hab.1, hab.2⟩ h
        | cons x t3 => rfl
  refine ⟨hpe, ?_, ?_, "", ": " ++ raw, rfl⟩
  · simp [applyEdit, hpe]
  · simp [applyEdits, applyEdit, hpe]

/-- Witness for C7 at the malformed edit string of the test suite. -/
theorem c7_invalid_format_witness :
    parseEdit "badformat" = none ∧
    applyEdit sampleEntry { raw := "badformat", op := ScopeOp.add }
      = (sampleEntry, EditOutcome.invalidFormat "badformat") :=
  ⟨(c7_invalid_format "badformat" ScopeOp.add sampleEntry []
      (by rintro ⟨a, b, hsp, -, -⟩; simp [splitSep] at hsp)).1,
    (c7_invalid_format "badformat" ScopeOp.add sampleEntry []
      (by rintro ⟨a, b, hsp, -, -⟩; simp [splitSep] at hsp)).2.1⟩

/-- C8: when the configuration resource does not exist the command
fails through the same error channel as an unknown plugin: a non-zero
exit with the plugin-not-found message naming the requested plugin,
exactly as for a document that lacks the plugin key. -/
theorem c8_missing_config_channel (inv : Invocation) :
    manage none inv
      = { exitCode := 1, report := [], messages := [pluginNotFoundMsg inv.plugin_id],
          disk := none } ∧
    containsSub (pluginNotFoundMsg inv.plugin_id) inv.plugin_id ∧
    ∀ d : ConfigDocument, d.plugins.lookup inv.plugin_id = none →
      manage (some d) inv
        = { exitCode := 1, report := [], messages := [pluginNotFoundMsg inv.plugin_id],
            disk := some d } := by
  refine ⟨?_, ⟨"Plugin ", " not found", rfl⟩, ?_⟩
  · simp [manage, loadDocument]
  · intro d hd
    simp [manage, loadDocument, hd]

/-- Witness for C8: a missing resource and an empty document both
produce the fatal plugin-not-found result. -/
theorem c8_missing_config_channel_witness :
    manage none
        { plugin_id := "brave_search", adds := ["search_internet::s:x"], removes := [],
          dry_run := false }
      = { exitCode := 1, report := [], messages := [pluginNotFoundMsg "brave_search"],
          disk := none } ∧
    manage (some { plugins := [], extra := [] })
        { plugin_id := "brave_search", adds := ["search_internet::s:x"], removes := [],
          dry_run := false }
      = { exitCode := 1, report := [], messages := [pluginNotFoundMsg "brave_search"],
          disk := some { plugins := [], extra := [] } } :=
  ⟨(c8_missing_config_channel
      { plugin_id := "brave_search", adds := ["search_internet::s:x"], removes := [],
        dry_run := false }).1,
    (c8_missing_config_channel
      { plugin_id := "brave_search", adds := ["search_internet::s:x"], removes := [],
        dry_run := false }).2.2 { plugins := [], extra := [] } (by decide)⟩

/-! Part 2: embeddings of the code present in the sources. -/

/-! Embedding of cli_utils: paths and safe tar extraction.  A path is a
flag saying whether it is absolute plus its raw components; absolute
normalized paths are plain component lists. -/

/-- A file system path as handled by os.path: an absoluteness flag and
the raw path components, which may include empty, dot and dot-dot
segments. -/
structure RawPath where
  absolute : Bool
  comps : List String
deriving DecidableEq, Repr

/-- Resolution of dot and dot-dot segments performed by os.path.normpath
on an absolute path: empty and dot segments vanish, dot-dot pops the
previous component and is dropped at the root. -/
def normpath (comps : List String) : List String :=
  comps.foldl
    (fun acc c =>
      if c = "" ∨ c = "." then acc
      else if c = ".." then acc.dropLast
      else acc ++ [c])
    []

/-- os.path.abspath relative to a current working directory given as an
absolute normalized component list: an absolute path is normalized as
is, a relative path is joined onto the working directory first. -/
def abspath (cwd : List String) (p : RawPath) : List String :=
  normpath ((if p.absolute then [] else cwd) ++ p.comps)

/-- os.path.join of a base path and a child: an absolute child replaces
the base entirely, otherwise the components are concatenated. -/
def joinPath (base : RawPath) (child : RawPath) : RawPath :=
  if child.absolute then child else { absolute := base.absolute, comps := base.comps ++ child.comps }

/-- os.path.commonpath of two absolute normalized paths: their longest
common component prefix. -/
def commonPath : List String → List String → List String
  | a :: as, b :: bs => if a = b then a :: commonPath as bs else []
  | _, _ => []

/-- Embedding of cli_utils._is_within_directory: both paths are made
absolute, and the target is within the base directory exactly when the
common path of the two equals the base (the source compares
commonpath of the singleton list, which is the base itself, with
commonpath of the pair). -/
def is_within_directory (cwd : List String) (base_dir target_path : RawPath) : Bool :=
  let b := abspath cwd base_dir
  let t := abspath cwd target_path
  b == commonPath b t

/-- A tar archive member, carrying its stored name as a path. -/
structure TarMember where
  name : RawPath
deriving DecidableEq, Repr

/-- The exception text raised by safe_extract on a traversal attempt. -/
def traversalMsg (m : TarMember) : String :=
  "Path traversal detected in tar member: " ++ String.intercalate "/" m.name.comps

/-- The member-checking loop of cli_utils.safe_extract: each member
name is joined onto the destination and checked; the first member whose
joined path escapes the destination raises. -/
def checkMembers (cwd : List String) (path : RawPath) : List TarMember → Except String Unit
  | [] => Except.ok ()
  | m :: ms =>
    if is_within_directory cwd path (joinPath path m.name) then checkMembers cwd path ms
    else Except.error (traversalMsg m)

/-- Embedding of cli_utils.safe_extract: the checking loop runs over
all members first, and only when it raises no exception is the archive
extracted; the returned list holds the resolved on-disk paths actually
written. -/
def safe_extract (cwd : List String) (tar : List TarMember) (path : RawPath) :
    Except String (List (List String)) :=
  match checkMembers cwd path tar with
  | Except.error e => Except.error e
  | Except.ok _ => Except.ok (tar.map (fun m => abspath cwd (joinPath path m.name)))

/-- The member check succeeds exactly when every member passes the
within-directory test. -/
theorem checkMembers_ok_iff (cwd : List String) (path : RawPath) (tar : List TarMember) :
    checkMembers cwd path tar = Except.ok ()
      ↔ ∀ m ∈ tar, is_within_directory cwd path (joinPath path m.name) = true := by
  induction tar with
  | nil => simp [checkMembers]
  | cons m ms ih =>
    by_cases hm : is_within_directory cwd path (joinPath path m.name) = true
    · simp [checkMembers, hm, ih]
    · simp [checkMembers, hm]

/-- C9: safe_extract raises before extracting anything whenever some
member of the archive would land outside the destination directory, and
it writes files only when every member stays within the destination;
in that case the files written are exactly the joined member paths. -/
theorem c9_safe_extract_guard (cwd : List String) (tar : List TarMember) (path : RawPath) :
    ((∃ m ∈ tar, is_within_directory cwd path (joinPath path m.name) = false) →
      ∃ e, safe_extract cwd tar path = Except.error e) ∧
    (∀ out, safe_extract cwd tar path = Except.ok out →
      (∀ m ∈ tar, is_within_directory cwd path (joinPath path m.name) = true) ∧
        out = tar.map (fun m => abspath cwd (joinPath path m.name))) ∧
    ((∀ m ∈ tar, is_within_directory cwd path (joinPath path m.name) = true) →
      safe_extract cwd tar path
        = Except.ok (tar.map (fun m => abspath cwd (joinPath path m.name)))) := by
  refine ⟨?_, ?_, ?_⟩
  · rintro ⟨m, hm, hbad⟩
    cases hchk : checkMembers cwd path tar with
    | error e => exact ⟨e, by simp [safe_extract, hchk]⟩
    | ok u =>
      cases u
      have := (checkMembers_ok_iff cwd path tar).mp hchk m hm
      rw [hbad] at this
      cases this
  · intro out hout
    cases hchk : checkMembers cwd path tar with
    | error e => simp [safe_extract, hchk] at hout
    | ok u =>
      cases u
      refine ⟨(checkMembers_ok_iff cwd path tar).mp hchk, ?_⟩
      simpa [safe_extract, hchk] using hout.symm
  · intro hall
    rw [safe_extract, (checkMembers_ok_iff cwd path tar).mpr hall]

/-- Witness for C9: a member climbing out of the destination with a
dot-dot segment is rejected, and an archive of plain members under the
destination is extracted at the joined paths. -/
theorem c9_safe_extract_guard_witness :
    (∃ e, safe_extract ["home"]
        [{ name := { absolute := false, comps := ["..", "evil"] } }]
        { absolute := false, comps := ["dest"] } = Except.error e) ∧
    safe_extract ["home"] [{ name := { absolute := false, comps := ["sub", "file"] } }]
        { absolute := false, comps := ["dest"] }
      = Except.ok [["home", "dest", "sub", "file"]] :=
  ⟨(c9_safe_extract_guard ["home"]
      [{ name := { absolute := false, comps := ["..", "evil"] } }]
      { absolute := false, comps := ["dest"] }).1
      ⟨{ name := { absolute := false, comps := ["..", "evil"] } }, by decide, by decide⟩,
    (c9_safe_extract_guard ["home"]
      [{ name := { absolute := false, comps := ["sub", "file"] } }]
      { absolute := false, comps := ["dest"] }).2.2 (by decide)⟩

/-! Embedding of the agentup-cfg output branch of
plugin_info.list_plugins. -/

/-- A discovered plugin as returned by
PluginRegistry.discover_all_available_plugins. -/
structure PluginInfo where
  name : String
  package : String
  version : String
  status : String
  loaded : Bool
  configured : Bool
deriving DecidableEq, Repr

/-- A capability definition as loaded by _load_plugin_capabilities. -/
structure CapDef where
  id : String
  name : String
  description : String
  required_scopes : List String
  is_ai_function : Bool
  tags : List String
deriving DecidableEq, Repr

/-- One capability entry of the agentup-cfg output. -/
structure CapabilityConfig where
  capability_id : String
  required_scopes : List String
  enabled : Bool
deriving DecidableEq, Repr

/-- One plugin entry of the agentup-cfg output, with the field order of
the OrderedDict built by the source. -/
structure PluginConfig where
  package : String
  name : String
  description : String
  tags : List String
  input_mode : String
  output_mode : String
  priority : Nat
  capabilities : List CapabilityConfig
deriving DecidableEq, Repr

/-- The str.title transformation of Python: an alphabetic character is
uppercased when it follows a non-alphabetic character and lowercased
otherwise. -/
def pyTitle (s : String) : String :=
  String.mk
    (s.data.foldl
      (fun (st : List Char × Bool) c =>
        let c2 :=
          if st.2 then (if c.isAlpha then c.toLower else c)
          else (if c.isAlpha then c.toUpper else c)
        (st.1 ++ [c2], c.isAlpha))
      ([], false)).1

/-- The display name generated for a plugin: underscores and hyphens
become spaces, the result is title-cased, and the word Plugin is
appended unless already present at the end. -/
def displayNameOf (plugin_name : String) : String :=
  let base_name := pyTitle ((plugin_name.replace "_" " ").replace "-" " ")
  if base_name.toLower.endsWith "plugin" then base_name else base_name ++ " Plugin"

/-- The generated description line for a plugin. -/
def descriptionOf (plugin_name : String) : String :=
  "A plugin for " ++ ((plugin_name.replace "_" " ").replace "-" " " ++ " functionality")

/-- The single generated tag for a plugin. -/
def tagOf (plugin_name : String) : String :=
  ((plugin_name.replace "_" "-").replace " " "-").toLower

/-- The capability entry emitted for one loaded capability
definition. -/
def capabilityConfigOf (cap : CapDef) : CapabilityConfig :=
  { capability_id := cap.id, required_scopes := cap.required_scopes, enabled := true }

/-- The plugin entry the agentup-cfg branch builds for one discovered
plugin from its loaded capability definitions. -/
def mkPluginConfig (p : PluginInfo) (caps : List CapDef) : PluginConfig :=
  { package := p.package
    name := displayNameOf p.name
    description := descriptionOf p.name
    tags := [tagOf p.name]
    input_mode := "text"
    output_mode := "text"
    priority := 50
    capabilities := caps.map capabilityConfigOf }

/-- The plugins_config list accumulated by the agentup-cfg loop: each
discovered plugin is turned into a plugin entry and appended only when
its capability list is non-empty. -/
def buildPluginsConfig (plugins : List PluginInfo) (loadCaps : String → List CapDef) :
    List PluginConfig :=
  plugins.foldl
    (fun acc p =>
      let cfg := mkPluginConfig p (loadCaps p.name)
      if cfg.capabilities = [] then acc else acc ++ [cfg])
    []

/-- The text printed by the agentup-cfg branch: the YAML dump of the
accumulated plugins when there are any, and the literal empty mapping
line otherwise.  The YAML serializer is an external collaborator and is
taken as a parameter. -/
def agentupCfgPrinted (yamlDump : List PluginConfig → String) (plugins : List PluginInfo)
    (loadCaps : String → List CapDef) : String :=
  let plugins_config := buildPluginsConfig plugins loadCaps
  if plugins_config = [] then "plugins: []" else yamlDump plugins_config

/-- The accumulated plugins_config list is the filtered image of the
discovered plugins: exactly the entries built from plugins with a
non-empty capability list, in discovery order. -/
theorem buildPluginsConfig_eq (plugins : List PluginInfo) (loadCaps : String → List CapDef) :
    buildPluginsConfig plugins loadCaps
      = (plugins.map (fun p => mkPluginConfig p (loadCaps p.name))).filter
          (fun cfg => !cfg.capabilities.isEmpty) := by
  have key : ∀ (l : List PluginInfo) (acc : List PluginConfig),
      l.foldl
          (fun acc p =>
            let cfg := mkPluginConfig p (loadCaps p.name)
            if cfg.capabilities = [] then acc else acc ++ [cfg])
          acc
        = acc ++ (l.map (fun p => mkPluginConfig p (loadCaps p.name))).filter
            (fun cfg => !cfg.capabilities.isEmpty) := by
    intro l
    induction l with
    | nil => simp
    | cons p l ih =>
      intro acc
      by_cases hcap : (mkPluginConfig p (loadCaps p.name)).capabilities = []
      · simp [List.foldl_cons, hcap, ih, List.filter_cons, List.isEmpty_iff]
      · simp [List.foldl_cons, hcap, ih, List.filter_cons, List.isEmpty_iff]
  simpa using key plugins []

/-- C10: in the agentup-cfg output of the list command, a discovered
plugin is included in the emitted plugins sequence exactly when it has
at least one capability, every emitted entry has a non-empty
capability list, and when no discovered plugin has any capability the
command prints exactly the line plugins followed by an empty list. -/
theorem c10_agentup_cfg_filter (plugins : List PluginInfo) (loadCaps : String → List CapDef)
    (yamlDump : List PluginConfig → String) :
    (∀ cfg, cfg ∈ buildPluginsConfig plugins loadCaps
      ↔ ∃ p ∈ plugins, loadCaps p.name ≠ [] ∧ cfg = mkPluginConfig p (loadCaps p.name)) ∧
    (∀ cfg ∈ buildPluginsConfig plugins loadCaps, cfg.capabilities ≠ []) ∧
    ((∀ p ∈ plugins, loadCaps p.name = []) →
      agentupCfgPrinted yamlDump plugins loadCaps = "plugins: []") := by
  have hmem : ∀ cfg, cfg ∈ buildPluginsConfig plugins loadCaps
      ↔ ∃ p ∈ plugins, loadCaps p.name ≠ [] ∧ cfg = mkPluginConfig p (loadCaps p.name) := by
    intro cfg
    rw [buildPluginsConfig_eq, List.mem_filter]
    simp only [List.mem_map, List.isEmpty_iff, Bool.not_eq_true']
    constructor
    · rintro ⟨⟨p, hp, rfl⟩, hne⟩
      refine ⟨p, hp, ?_, rfl⟩
      intro hnil
      simp [mkPluginConfig, hnil] at hne
    · rintro ⟨p, hp, hne, rfl⟩
      refine ⟨⟨p, hp, rfl⟩, ?_⟩
      simp [mkPluginConfig, hne]
  refine ⟨hmem, ?_, ?_⟩
  · intro cfg hcfg
    obtain ⟨p, _, hne, rfl⟩ := (hmem cfg).mp hcfg
    simp [mkPluginConfig, hne]
  · intro hall
    have hempty : buildPluginsConfig plugins loadCaps = [] := by
      by_contra hne
      obtain ⟨cfg, hcfg⟩ := List.exists_mem_of_ne_nil _ hne
      obtain ⟨p, hp, hne2, -⟩ := (hmem cfg).mp hcfg
      exact hne2 (hall p hp)
    simp [agentupCfgPrinted, hempty]

/-- Witness for C10: the discovered plugin of the empty-capabilities
test yields the literal empty plugins line. -/
theorem c10_agentup_cfg_filter_witness :
    agentupCfgPrinted (fun _ => "")
        [{ name := "empty_plugin", package := "empty-plugin", version := "1.0.0",
            status := "available", loaded := false, configured := false }]
        (fun _ => []) = "plugins: []" :=
  (c10_agentup_cfg_filter
      [{ name := "empty_plugin", package := "empty-plugin", version := "1.0.0",
          status := "available", loaded := false, configured := false }]
      (fun _ => []) (fun _ => "")).2.2 (by simp)

end AgentUp
